import Mathlib

/-!
# Package `errors`: error records with a parent chain, arguments and a call site

A shallow embedding of `caller.go` and `errors.go`.

* Records of type `Error` live in a heap and are referred to by pointers, because the
  methods `SetArg` and `SetParent` update their receiver in place and return it.
* An `error` interface value is the nil interface, a `*Error` (possibly a nil pointer) or a
  value of some other dynamic type, which is kept abstract: an identity and its text.
* The recursive functions `Error`, `Cause` and `List` follow parent links through the heap.
  Since a chain may be cyclic they take a bound on the number of calls; `Outcome.diverge`
  says that the bound was reached.
-/

set_option linter.dupNamespace false

namespace Errors

/-! ## Results of running code -/

/-- The result of running a piece of Go code: a value, a run-time panic, or no result within
the allowed number of calls. -/
inductive Outcome (α : Type) where
  | ok (a : α)
  | panic
  | diverge
  deriving DecidableEq, Repr

/-- Apply a function to the value of a successful outcome. -/
def Outcome.map {α β : Type} (f : α → β) : Outcome α → Outcome β
  | .ok a => .ok (f a)
  | .panic => .panic
  | .diverge => .diverge

/-! ## Data model -/

/-- Address of an `Error` record in the heap. -/
abbrev Addr := Nat

/-- A value of type `*Error`: `none` is the nil pointer. -/
abbrev Ptr := Option Addr

/-- A value of the interface type `error`.
`ext id text` is a value whose dynamic type is not `*Error`; `id` identifies the value and
`text` is what `fmt` prints for it under `%v`. -/
inductive GoError where
  | nil
  | ext (id : Nat) (text : String)
  | ptr (p : Ptr)
  deriving DecidableEq, Repr

/-- A Go `map[string]interface{}` that has been made: a finite map with unique keys. -/
abbrev GoMap (V : Type) := AList (fun _ : String => V)

/-- The struct `Error`. `Parent` has type `*error`: `none` is the nil pointer and `some err`
a pointer to a variable holding `err` (the only such pointers the package creates are the
ones of `SetParent`, to a variable nothing else refers to). `Args` is `none` for the nil map. -/
structure Error (V : Type) where
  Msg : String
  Parent : Option GoError
  Args : Option (GoMap V)
  Caller : String

/-- The heap of `Error` records: the record at address `a` is the `a`-th entry. -/
abbrev Heap (V : Type) := List (Error V)

/-- Dereference a `*Error`; `none` when the pointer is nil (or refers to no record). -/
def deref {V : Type} (h : Heap V) : Ptr → Option (Error V)
  | none => none
  | some a => h[a]?

/-! ## caller.go -/

/-- The fields of `runtime.Frame` the package reads. Line numbers are not negative. -/
structure Frame where
  Function : String
  File : String
  Line : Nat
  deriving DecidableEq, Repr

/-- What the Go runtime answers while `Caller` runs: `stack` is the call stack seen by
`runtime.Callers(0, _)`, innermost frame first (index 0 is `runtime.Callers` itself, index 1
is `Caller`), and `getwd` is the working directory, `none` when `os.Getwd` fails. -/
structure World where
  stack : List Frame
  getwd : Option String

/-- The method `(*runtime.Frames).Next`: the next frame, whether more frames follow, and the
remaining frames. On an exhausted iterator it gives the zero frame. -/
def framesNext : List Frame → Frame × Bool × List Frame
  | [] => ({ Function := "", File := "", Line := 0 }, false, [])
  | f :: rest => (f, !rest.isEmpty, rest)

/-- The `for` loop of `Caller`; the first argument bounds the number of iterations, of which
there are at most `targetFrameIndex + 1`. -/
def callerLoop (targetFrameIndex : Nat) : Nat → List Frame → Bool → Nat → Frame → Frame
  | 0, _, _, _, frame => frame
  | k + 1, frames, more, frameIndex, frame =>
    if more && decide (frameIndex ≤ targetFrameIndex) then
      let (frameCandidate, more1, frames1) := framesNext frames
      let frame1 := if frameIndex = targetFrameIndex then frameCandidate else frame
      callerLoop targetFrameIndex k frames1 more1 (frameIndex + 1) frame1
    else frame

/-- The call `strings.Replace(s, old, new, 1)` on character lists: the first occurrence of
`old` in `s` is replaced by `new`. -/
def replaceFirst (old new : List Char) : List Char → List Char
  | [] => if old.isEmpty then new else []
  | c :: cs =>
    if old.isPrefixOf (c :: cs) then new ++ (c :: cs).drop old.length
    else c :: replaceFirst old new cs

/-- The call `strings.Replace(s, old, new, 1)`. -/
def stringsReplace1 (s old new : String) : String :=
  String.mk (replaceFirst old.data new.data s.data)

/-- The call `fmt.Sprintf("%s:%d", file, line)`. -/
def sprintfFileLine (file : String) (line : Nat) : String :=
  file ++ ":" ++ toString line

/-- The function `Caller` for a `skipFrames` that is not negative, once the slice of program
counters has been made: the `file:line` of the frame `skipFrames + 2` levels up, with the
working directory removed. `CallerInt` below adds the machine `int` and the allocation. -/
def Caller (w : World) (skipFrames : Nat) : String :=
  let targetFrameIndex := skipFrames + 2
  let programCounters := w.stack.take (targetFrameIndex + 2)
  let n := programCounters.length
  let frame : Frame := { Function := "unknown", File := "", Line := 0 }
  let frame :=
    if n > 0 then callerLoop targetFrameIndex (targetFrameIndex + 1) programCounters true 0 frame
    else frame
  let root := w.getwd.getD ""
  stringsReplace1 (sprintfFileLine frame.File frame.Line) (root ++ "/") ""

/-- Go's `int` on a 64-bit platform: the integer `i` wrapped into the range from `-2^63` to
`2^63 - 1`. -/
def wrapInt (i : Int) : Int :=
  (i + 2 ^ 63) % 2 ^ 64 - 2 ^ 63

/-- The function `Caller` on a machine `int`, with the allocation of the slice of program
counters. `maxLen` is the largest length for which `make([]uintptr, n)` succeeds on the
machine; `make` panics for a negative length and for a length out of range, and the program
stops when the memory is not there. With a negative `targetFrameIndex` the loop is not
entered. -/
def CallerInt (maxLen : Nat) (w : World) (skipFrames : Int) : Outcome String :=
  let targetFrameIndex := wrapInt (skipFrames + 2)
  let size := wrapInt (targetFrameIndex + 2)
  if size < 0 ∨ (maxLen : Int) < size then .panic
  else
    let programCounters := w.stack.take size.toNat
    let n := programCounters.length
    let frame : Frame := { Function := "unknown", File := "", Line := 0 }
    let frame :=
      if n > 0 ∧ 0 ≤ targetFrameIndex then
        callerLoop targetFrameIndex.toNat (targetFrameIndex.toNat + 1) programCounters true 0
          frame
      else frame
    let root := w.getwd.getD ""
    .ok (stringsReplace1 (sprintfFileLine frame.File frame.Line) (root ++ "/") "")

/-! ## errors.go -/

/-- The call `fmt.Sprintf("%v; %v", msg, parent)` once `parent` has been printed. -/
def sprintfMsgParent (msg parent : String) : String :=
  msg ++ "; " ++ parent

/-- The method `(*Error).Error`. The parent is printed by `fmt` under `%v`: `<nil>` for the
nil interface and for a nil `*Error`, the text of a foreign error, and the `Error` method
of a `*Error`. -/
def Error.Error {V : Type} (h : Heap V) : Nat → Ptr → Outcome String
  | 0, _ => .diverge
  | fuel + 1, e =>
    match deref h e with
    | none => .panic
    | some r =>
      match r.Parent with
      | some parent =>
        let printed : Outcome String :=
          match parent with
          | .nil => .ok "<nil>"
          | .ext _ text => .ok text
          | .ptr none => .ok "<nil>"
          | .ptr (some a) => Error.Error h fuel (some a)
        printed.map (sprintfMsgParent r.Msg)
      | none => .ok r.Msg

/-- The method `(*Error).SetArg`: `e.Args[arg] = value; return e`. Assigning to an entry of
the nil map panics. -/
def Error.SetArg {V : Type} (h : Heap V) (e : Ptr) (arg : String) (value : V) :
    Outcome (Heap V × Ptr) :=
  match e with
  | none => .panic
  | some a =>
    match h[a]? with
    | none => .panic
    | some r =>
      match r.Args with
      | none => .panic
      | some m => .ok (h.set a { r with Args := some (m.insert arg value) }, some a)

/-- The method `(*Error).SetParent`: `e.Parent = &err; return e`. -/
def Error.SetParent {V : Type} (h : Heap V) (e : Ptr) (err : GoError) :
    Outcome (Heap V × Ptr) :=
  match e with
  | none => .panic
  | some a =>
    match h[a]? with
    | none => .panic
    | some r => .ok (h.set a { r with Parent := some err }, some a)

/-- The function `Errorf`. `sprintf` stands for `fmt.Sprintf`; `w` is what the runtime answers
to the call `Caller(1)`. The new record is allocated at the end of the heap. -/
def Errorf {V : Type} (sprintf : String → List V → String) (w : World) (h : Heap V)
    (format : String) (args : List V) : Heap V × Ptr :=
  (h ++ [{ Msg := sprintf format args, Parent := none, Args := some ∅, Caller := Caller w 1 }],
    some h.length)

/-- The function `New`; `w` is what the runtime answers to the call `Caller(1)`. The new
record is allocated at the end of the heap. -/
def New {V : Type} (w : World) (h : Heap V) (err : String) : Heap V × Ptr :=
  (h ++ [{ Msg := err, Parent := none, Args := some ∅, Caller := Caller w 1 }], some h.length)

/-- The function `Cause`. The type assertion `err.(*Error)` also succeeds for a nil `*Error`,
whose field `Parent` cannot be read. -/
def Cause {V : Type} (h : Heap V) : Nat → GoError → Outcome GoError
  | 0, _ => .diverge
  | fuel + 1, err =>
    match err with
    | .ptr er =>
      match deref h er with
      | none => .panic
      | some r =>
        match r.Parent with
        | some parent => Cause h fuel parent
        | none => .ok err
    | _ => .ok err

/-- The function `List` of errors.go. -/
def ListOf {V : Type} (h : Heap V) : Nat → GoError → Outcome (List GoError)
  | 0, _ => .diverge
  | fuel + 1, err =>
    match err with
    | .ptr er =>
      match deref h er with
      | none => .panic
      | some r =>
        match r.Parent with
        | some parent => (ListOf h fuel parent).map (fun l => l ++ [GoError.ptr er])
        | none => .ok [GoError.ptr er]
    | _ => .ok [err]


/-! ## Chains -/

/-- The error `err` is a `*Error` whose record has its parent set to `parent`. -/
def HasParent {V : Type} (h : Heap V) (err parent : GoError) : Prop :=
  match err with
  | .ptr er =>
    match deref h er with
    | some r => r.Parent = some parent
    | none => False
  | _ => False

/-- The error `err` ends a chain: it is not a `*Error`, or it is an `Error` with no parent. -/
def IsRoot {V : Type} (h : Heap V) (err : GoError) : Prop :=
  match err with
  | .ptr er =>
    match deref h er with
    | some r => r.Parent = none
    | none => False
  | _ => True

/-- The list `[e_N, ..., e_1]` is a chain: every element but the last is an `Error` whose
parent is the next element, and the last one ends the chain. -/
def IsChain {V : Type} (h : Heap V) : List GoError → Prop
  | [] => False
  | [e] => IsRoot h e
  | c :: p :: rest => HasParent h c p ∧ IsChain h (p :: rest)

/-- Whether the type assertion `err.(*Error)` succeeds. -/
def GoError.isError : GoError → Bool
  | .ptr _ => true
  | _ => false

/-- An argument map holding the key `id`. -/
def exampleArgs : GoMap Nat :=
  AList.insert "id" 42 ∅

/-- A heap with three records: record 0 wraps record 1, which has no parent, and record 2
wraps a foreign error. -/
def exampleHeap : Heap Nat :=
  [{ Msg := "operation update failed", Parent := some (.ptr (some 1)),
     Args := some exampleArgs, Caller := "app/main.go:12" },
   { Msg := "low-level failure", Parent := none, Args := some ∅, Caller := "app/io.go:7" },
   { Msg := "my error", Parent := some (.ext 0 "something err"), Args := some ∅,
     Caller := "app/main.go:20" }]

/-- A call stack and working directory as seen from a constructor called by `main.main`. -/
def exampleWorld : World :=
  { stack :=
      [{ Function := "runtime.Callers", File := "/usr/local/go/src/runtime/extern.go", Line := 325 },
       { Function := "errors.Caller", File := "/home/dev/errors/caller.go", Line := 17 },
       { Function := "errors.New", File := "/home/dev/errors/errors.go", Line := 79 },
       { Function := "main.main", File := "/home/dev/app/main.go", Line := 12 },
       { Function := "runtime.main", File := "/usr/local/go/src/runtime/proc.go", Line := 250 }],
    getwd := some "/home/dev" }

/-- The record `r` with its arguments dropped: two records with the same image differ at most
in `Args`. -/
def eraseArgs {V : Type} (r : Error V) : Error V :=
  { r with Args := none }

/-- A call of one of the two methods that modify their receiver. -/
inductive Call (V : Type) where
  | SetArg (arg : String) (value : V)
  | SetParent (err : GoError)

/-- Run a sequence of chained calls `e.SetArg(..).SetParent(..)...`, each on the record the
previous one returned. -/
def runCalls {V : Type} (h : Heap V) (e : Ptr) : List (Call V) → Outcome (Heap V × Ptr)
  | [] => .ok (h, e)
  | c :: cs =>
    let step : Outcome (Heap V × Ptr) :=
      match c with
      | .SetArg arg value => Error.SetArg h e arg value
      | .SetParent err => Error.SetParent h e err
    match step with
    | .ok (h1, e1) => runCalls h1 e1 cs
    | .panic => .panic
    | .diverge => .diverge

/-- The frame `Caller` starts from and keeps when the stack is too short. -/
def unknownFrame : Frame :=
  { Function := "unknown", File := "", Line := 0 }

/-- What `Caller` returns once it has selected the frame `f`: the text `file:line` in which
the first occurrence of the working directory followed by `/` is replaced by nothing. -/
def reported (w : World) (f : Frame) : String :=
  stringsReplace1 (sprintfFileLine f.File f.Line) (w.getwd.getD "" ++ "/") ""

/-- The call `err.Error()` on an interface value: a method call on the nil interface panics,
a foreign error gives its text, a `*Error` runs `(*Error).Error`. -/
def callError {V : Type} (h : Heap V) (fuel : Nat) : GoError → Outcome String
  | .nil => .panic
  | .ext _ text => .ok text
  | .ptr p => Error.Error h fuel p

/-- The string of one element of a list of errors: the `Msg` alone of an `Error`, the text of
a foreign error, and `<nil>` (as `fmt` prints it) where there is no error. -/
def elementText {V : Type} (h : Heap V) : GoError → String
  | .nil => "<nil>"
  | .ext _ text => text
  | .ptr p =>
    match deref h p with
    | some r => r.Msg
    | none => "<nil>"

/-- Strings joined with `"; "` between neighbours. -/
def joinSemicolon : List String → String
  | [] => ""
  | [s] => s
  | s :: t :: rest => s ++ "; " ++ joinSemicolon (t :: rest)

/-- A stack captured so near its bottom that it holds only `runtime.Callers` and `Caller`. -/
def shallowWorld : World :=
  { stack :=
      [{ Function := "runtime.Callers", File := "/usr/local/go/src/runtime/extern.go", Line := 325 },
       { Function := "errors.Caller", File := "/home/dev/errors/caller.go", Line := 17 }],
    getwd := some "/home/dev" }

/-- A constructor called from a file whose path holds the working directory in its middle. -/
def nestedWorld : World :=
  { stack :=
      [{ Function := "runtime.Callers", File := "/usr/local/go/src/runtime/extern.go", Line := 325 },
       { Function := "errors.Caller", File := "/backup/home/dev/errors/caller.go", Line := 17 },
       { Function := "errors.New", File := "/backup/home/dev/errors/errors.go", Line := 79 },
       { Function := "main.main", File := "/backup/home/dev/app/main.go", Line := 12 },
       { Function := "runtime.main", File := "/usr/local/go/src/runtime/proc.go", Line := 250 }],
    getwd := some "/home/dev" }

/-- The example stack at a moment when `os.Getwd` fails. -/
def lostWorld : World :=
  { stack := exampleWorld.stack, getwd := none }

/-- The stack of a program whose `main.main` calls `Caller` itself, on line 9. -/
def directWorld : World :=
  { stack :=
      [{ Function := "runtime.Callers", File := "/usr/local/go/src/runtime/extern.go", Line := 325 },
       { Function := "errors.Caller", File := "/home/dev/errors/caller.go", Line := 17 },
       { Function := "main.main", File := "/home/dev/app/main.go", Line := 9 },
       { Function := "runtime.main", File := "/usr/local/go/src/runtime/proc.go", Line := 250 },
       { Function := "runtime.goexit", File := "/usr/local/go/src/runtime/asm_amd64.s",
         Line := 1594 }],
    getwd := some "/home/dev" }

/-! ## Lemmas on the heap and on the recursive functions -/

theorem Error_noParent {V : Type} (h : Heap V) (fuel : Nat) (a : Addr) (r : Error V)
    (ha : h[a]? = some r) (hp : r.Parent = none) :
    Error.Error h (fuel + 1) (some a) = .ok r.Msg := by
  simp only [Error.Error, deref, ha, hp]

theorem Error_parentNil {V : Type} (h : Heap V) (fuel : Nat) (a : Addr) (r : Error V)
    (ha : h[a]? = some r) (hp : r.Parent = some .nil) :
    Error.Error h (fuel + 1) (some a) = .ok (r.Msg ++ "; " ++ "<nil>") := by
  simp only [Error.Error, deref, ha, hp, Outcome.map, sprintfMsgParent]

theorem Error_parentNilPtr {V : Type} (h : Heap V) (fuel : Nat) (a : Addr) (r : Error V)
    (ha : h[a]? = some r) (hp : r.Parent = some (.ptr none)) :
    Error.Error h (fuel + 1) (some a) = .ok (r.Msg ++ "; " ++ "<nil>") := by
  simp only [Error.Error, deref, ha, hp, Outcome.map, sprintfMsgParent]

theorem Error_parentExt {V : Type} (h : Heap V) (fuel : Nat) (a : Addr) (r : Error V)
    (i : Nat) (t : String) (ha : h[a]? = some r) (hp : r.Parent = some (.ext i t)) :
    Error.Error h (fuel + 1) (some a) = .ok (r.Msg ++ "; " ++ t) := by
  simp only [Error.Error, deref, ha, hp, Outcome.map, sprintfMsgParent]

theorem Error_parentPtr {V : Type} (h : Heap V) (fuel : Nat) (a b : Addr) (r : Error V)
    (ha : h[a]? = some r) (hp : r.Parent = some (.ptr (some b))) :
    Error.Error h (fuel + 1) (some a) =
      (Error.Error h fuel (some b)).map (fun s => r.Msg ++ "; " ++ s) := by
  simp only [Error.Error, deref, ha, hp]
  rfl

theorem Error_mono {V : Type} (h : Heap V) :
    ∀ (n : Nat) (e : Ptr) (s : String), Error.Error h n e = .ok s →
      ∀ m, n ≤ m → Error.Error h m e = .ok s := by
  intro n
  induction n with
  | zero => intro e s hs; simp [Error.Error] at hs
  | succ n ih =>
    intro e s hs m hm
    obtain ⟨m, rfl⟩ : ∃ k, m = k + 1 := ⟨m - 1, by omega⟩
    have hnm : n ≤ m := by omega
    rcases e with _ | a
    · simp [Error.Error, deref] at hs
    · cases ha : h[a]? with
      | none => simp [Error.Error, deref, ha] at hs
      | some r =>
        rcases hP : r.Parent with _ | p
        · rw [Error_noParent h n a r ha hP] at hs
          rw [Error_noParent h m a r ha hP, hs]
        · rcases p with _ | ⟨i, t⟩ | p
          · rw [Error_parentNil h n a r ha hP] at hs
            rw [Error_parentNil h m a r ha hP, hs]
          · rw [Error_parentExt h n a r i t ha hP] at hs
            rw [Error_parentExt h m a r i t ha hP, hs]
          · rcases p with _ | b
            · rw [Error_parentNilPtr h n a r ha hP] at hs
              rw [Error_parentNilPtr h m a r ha hP, hs]
            · rw [Error_parentPtr h n a b r ha hP] at hs
              rw [Error_parentPtr h m a b r ha hP]
              cases hb : Error.Error h n (some b) with
              | ok t =>
                rw [ih (some b) t hb m hnm]
                simpa [hb] using hs
              | panic => simp [hb, Outcome.map] at hs
              | diverge => simp [hb, Outcome.map] at hs

theorem Cause_succ_ptr {V : Type} (h : Heap V) (fuel : Nat) (a : Addr) (r : Error V)
    (ha : h[a]? = some r) :
    Cause h (fuel + 1) (.ptr (some a)) =
      match r.Parent with
      | some parent => Cause h fuel parent
      | none => .ok (.ptr (some a)) := by
  simp only [Cause, deref, ha]

theorem ListOf_succ_ptr {V : Type} (h : Heap V) (fuel : Nat) (a : Addr) (r : Error V)
    (ha : h[a]? = some r) :
    ListOf h (fuel + 1) (.ptr (some a)) =
      match r.Parent with
      | some parent => (ListOf h fuel parent).map (fun l => l ++ [GoError.ptr (some a)])
      | none => .ok [GoError.ptr (some a)] := by
  simp only [ListOf, deref, ha]

theorem Cause_of_isRoot {V : Type} (h : Heap V) (fuel : Nat) (e : GoError) (he : IsRoot h e) :
    Cause h (fuel + 1) e = .ok e := by
  rcases e with _ | ⟨i, t⟩ | p
  · rfl
  · rfl
  · simp only [IsRoot] at he
    cases hd : deref h p with
    | none => simp [hd] at he
    | some r =>
      simp only [hd] at he
      simp [Cause, hd, he]

theorem ListOf_of_isRoot {V : Type} (h : Heap V) (fuel : Nat) (e : GoError) (he : IsRoot h e) :
    ListOf h (fuel + 1) e = .ok [e] := by
  rcases e with _ | ⟨i, t⟩ | p
  · rfl
  · rfl
  · simp only [IsRoot] at he
    cases hd : deref h p with
    | none => simp [hd] at he
    | some r =>
      simp only [hd] at he
      simp [ListOf, hd, he]

theorem Cause_of_hasParent {V : Type} (h : Heap V) (fuel : Nat) (c p : GoError)
    (hp : HasParent h c p) : Cause h (fuel + 1) c = Cause h fuel p := by
  rcases c with _ | ⟨i, t⟩ | q
  · simp [HasParent] at hp
  · simp [HasParent] at hp
  · simp only [HasParent] at hp
    cases hd : deref h q with
    | none => simp [hd] at hp
    | some r =>
      simp only [hd] at hp
      simp [Cause, hd, hp]

theorem ListOf_of_hasParent {V : Type} (h : Heap V) (fuel : Nat) (c p : GoError)
    (hp : HasParent h c p) :
    ListOf h (fuel + 1) c = (ListOf h fuel p).map (fun l => l ++ [c]) := by
  rcases c with _ | ⟨i, t⟩ | q
  · simp [HasParent] at hp
  · simp [HasParent] at hp
  · simp only [HasParent] at hp
    cases hd : deref h q with
    | none => simp [hd] at hp
    | some r =>
      simp only [hd] at hp
      simp [ListOf, hd, hp]

theorem Cause_chain {V : Type} (h : Heap V) :
    ∀ (rest : List GoError) (e : GoError), IsChain h (e :: rest) →
      ∀ fuel, rest.length + 1 ≤ fuel →
        Cause h fuel e = .ok ((e :: rest).getLast (List.cons_ne_nil e rest)) := by
  intro rest
  induction rest with
  | nil =>
    intro e hc fuel hf
    obtain ⟨k, rfl⟩ : ∃ k, fuel = k + 1 := ⟨fuel - 1, by omega⟩
    simpa using Cause_of_isRoot h k e hc
  | cons p rest ih =>
    intro e hc fuel hf
    obtain ⟨k, rfl⟩ : ∃ k, fuel = k + 1 := ⟨fuel - 1, by omega⟩
    rw [Cause_of_hasParent h k e p hc.1, ih p hc.2 k (by simpa using hf)]
    simp

theorem ListOf_chain {V : Type} (h : Heap V) :
    ∀ (rest : List GoError) (e : GoError), IsChain h (e :: rest) →
      ∀ fuel, rest.length + 1 ≤ fuel → ListOf h fuel e = .ok (e :: rest).reverse := by
  intro rest
  induction rest with
  | nil =>
    intro e hc fuel hf
    obtain ⟨k, rfl⟩ : ∃ k, fuel = k + 1 := ⟨fuel - 1, by omega⟩
    simpa using ListOf_of_isRoot h k e hc
  | cons p rest ih =>
    intro e hc fuel hf
    obtain ⟨k, rfl⟩ : ∃ k, fuel = k + 1 := ⟨fuel - 1, by omega⟩
    rw [ListOf_of_hasParent h k e p hc.1, ih p hc.2 k (by simpa using hf)]
    simp [Outcome.map]

theorem lookup_append_new {V : Type} (h : Heap V) (r : Error V) :
    (h ++ [r])[h.length]? = some r := by
  simp

theorem lookup_append_old {V : Type} (h l : Heap V) (a : Addr) (r : Error V)
    (ha : h[a]? = some r) : (h ++ l)[a]? = some r := by
  have hlt : a < h.length := by
    rcases Nat.lt_or_ge a h.length with hlt | hge
    · exact hlt
    · rw [List.getElem?_eq_none hge] at ha; cases ha
  rw [List.getElem?_append_left hlt, ha]

theorem lookup_set_self {V : Type} (h : Heap V) (a : Addr) (r r1 : Error V)
    (ha : h[a]? = some r) : (h.set a r1)[a]? = some r1 := by
  have hlt : a < h.length := by
    rcases Nat.lt_or_ge a h.length with hlt | hge
    · exact hlt
    · rw [List.getElem?_eq_none hge] at ha; cases ha
  simp [List.getElem?_set, hlt]

theorem lookup_set_ne {V : Type} (h : Heap V) (a b : Addr) (r1 : Error V) (hab : b ≠ a) :
    (h.set a r1)[b]? = h[b]? := by
  simp [List.getElem?_set, Ne.symm hab]

theorem SetParent_ok {V : Type} (h : Heap V) (a : Addr) (r : Error V) (err : GoError)
    (ha : h[a]? = some r) :
    Error.SetParent h (some a) err = .ok (h.set a { r with Parent := some err }, some a) := by
  simp only [Error.SetParent, ha]

theorem SetArg_ok {V : Type} (h : Heap V) (a : Addr) (r : Error V) (m : GoMap V)
    (arg : String) (value : V) (ha : h[a]? = some r) (hm : r.Args = some m) :
    Error.SetArg h (some a) arg value =
      .ok (h.set a { r with Args := some (m.insert arg value) }, some a) := by
  simp only [Error.SetArg, ha, hm]

theorem New_length {V : Type} (w : World) (h : Heap V) (m : String) :
    (New w h m).1.length = h.length + 1 := by
  simp [New]

theorem New_lookup_new {V : Type} (w : World) (h : Heap V) (m : String) :
    (New w h m).1[h.length]? =
      some { Msg := m, Parent := none, Args := some ∅, Caller := Caller w 1 } :=
  lookup_append_new h _

theorem New_lookup_old {V : Type} (w : World) (h : Heap V) (m : String) (a : Addr)
    (r : Error V) (ha : h[a]? = some r) : (New w h m).1[a]? = some r :=
  lookup_append_old h _ a r ha


theorem lookup_lt {V : Type} (h : Heap V) (a : Addr) (r : Error V) (ha : h[a]? = some r) :
    a < h.length := by
  rcases Nat.lt_or_ge a h.length with hlt | hge
  · exact hlt
  · rw [List.getElem?_eq_none hge] at ha; cases ha

theorem set_lookup_self {V : Type} (h : Heap V) (a : Addr) (r : Error V)
    (ha : h[a]? = some r) : h.set a r = h := by
  apply List.ext_getElem?
  intro b
  by_cases hb : b = a
  · subst hb; rw [lookup_set_self h b r r ha, ha]
  · rw [lookup_set_ne h a b r hb]

theorem Error_congr {V : Type} (h h1 : Heap V)
    (hsame : ∀ a : Addr, (h1[a]?).map eraseArgs = (h[a]?).map eraseArgs) :
    ∀ (fuel : Nat) (e : Ptr), Error.Error h1 fuel e = Error.Error h fuel e := by
  intro fuel
  induction fuel with
  | zero => intro e; rfl
  | succ n ih =>
    intro e
    rcases e with _ | a
    · rfl
    · have hs := hsame a
      cases ha : h[a]? with
      | none =>
        cases ha1 : h1[a]? with
        | none => simp [Error.Error, deref, ha, ha1]
        | some r1 => simp [ha, ha1] at hs
      | some r =>
        cases ha1 : h1[a]? with
        | none => simp [ha, ha1] at hs
        | some r1 =>
          simp only [ha, ha1, Option.map_some', Option.some.injEq, eraseArgs,
            Error.mk.injEq] at hs
          obtain ⟨hmsg, hpar, -, -⟩ := hs
          simp only [Error.Error, deref, ha, ha1, hmsg, hpar, ih]

theorem eraseArgs_set {V : Type} (h : Heap V) (a : Addr) (r r1 : Error V)
    (ha : h[a]? = some r) (hr : eraseArgs r1 = eraseArgs r) :
    ∀ b : Addr, ((h.set a r1)[b]?).map eraseArgs = (h[b]?).map eraseArgs := by
  intro b
  by_cases hb : b = a
  · subst hb; rw [lookup_set_self h b r r1 ha, ha]; simp [hr]
  · rw [lookup_set_ne h a b r1 hb]

theorem Errorf_lookup_new {V : Type} (sprintf : String → List V → String) (w : World)
    (h : Heap V) (format : String) (args : List V) :
    (Errorf sprintf w h format args).1[h.length]? =
      some { Msg := sprintf format args, Parent := none, Args := some ∅,
             Caller := Caller w 1 } :=
  lookup_append_new h _

theorem runCalls_ok {V : Type} :
    ∀ (calls : List (Call V)) (h : Heap V) (a : Addr) (r : Error V) (m : GoMap V),
      h[a]? = some r → r.Args = some m →
      ∃ h1 r1 m1, runCalls h (some a) calls = .ok (h1, some a) ∧ h1[a]? = some r1 ∧
        r1.Args = some m1 ∧ r1.Msg = r.Msg ∧ r1.Caller = r.Caller := by
  intro calls
  induction calls with
  | nil =>
    intro h a r m ha hm
    exact ⟨h, r, m, rfl, ha, hm, rfl, rfl⟩
  | cons c cs ih =>
    intro h a r m ha hm
    cases c with
    | SetArg arg value =>
      obtain ⟨h1, r1, m1, hrun, h1a, hm1, hmsg, hcal⟩ :=
        ih (h.set a { r with Args := some (m.insert arg value) }) a
          { r with Args := some (m.insert arg value) } (m.insert arg value)
          (lookup_set_self h a r _ ha) rfl
      refine ⟨h1, r1, m1, ?_, h1a, hm1, hmsg, hcal⟩
      simp only [runCalls, SetArg_ok h a r m arg value ha hm, hrun]
    | SetParent err =>
      obtain ⟨h1, r1, m1, hrun, h1a, hm1, hmsg, hcal⟩ :=
        ih (h.set a { r with Parent := some err }) a { r with Parent := some err } m
          (lookup_set_self h a r _ ha) hm
      refine ⟨h1, r1, m1, ?_, h1a, hm1, hmsg, hcal⟩
      simp only [runCalls, SetParent_ok h a r err ha, hrun]

/-! ## Lemmas on `Caller` -/

theorem callerLoop_select (target : Nat) :
    ∀ (k : Nat) (frames : List Frame) (frameIndex : Nat) (frame : Frame),
      frames ≠ [] → frameIndex + k = target →
      callerLoop target (k + 1) frames true frameIndex frame =
        (frames[target - frameIndex]?).getD frame := by
  intro k
  induction k with
  | zero =>
    intro frames frameIndex frame hne hk
    obtain ⟨f, rest, rfl⟩ := List.exists_cons_of_ne_nil hne
    have hidx : frameIndex = target := by omega
    subst hidx
    simp [callerLoop, framesNext]
  | succ k ih =>
    intro frames frameIndex frame hne hk
    obtain ⟨f, rest, rfl⟩ := List.exists_cons_of_ne_nil hne
    have hle : frameIndex ≤ target := by omega
    have hneq : frameIndex ≠ target := by omega
    have hsub : target - frameIndex = (target - (frameIndex + 1)) + 1 := by omega
    rw [callerLoop]
    simp only [Bool.true_and, decide_eq_true_eq, hle, if_true, framesNext, hneq, if_false]
    rw [hsub, List.getElem?_cons_succ]
    cases rest with
    | nil => simp [callerLoop]
    | cons g rest1 =>
      have := ih (g :: rest1) (frameIndex + 1) frame (List.cons_ne_nil _ _) (by omega)
      simpa using this

theorem Caller_eq_reported (w : World) (skipFrames : Nat) :
    Caller w skipFrames = reported w ((w.stack[skipFrames + 2]?).getD unknownFrame) := by
  have hframe :
      (if (w.stack.take (skipFrames + 2 + 2)).length > 0 then
          callerLoop (skipFrames + 2) (skipFrames + 2 + 1) (w.stack.take (skipFrames + 2 + 2))
            true 0 unknownFrame
        else unknownFrame) = (w.stack[skipFrames + 2]?).getD unknownFrame := by
    by_cases hn : (w.stack.take (skipFrames + 2 + 2)).length > 0
    · rw [if_pos hn, callerLoop_select (skipFrames + 2) (skipFrames + 2) _ 0 unknownFrame
        (List.ne_nil_of_length_pos hn) (by omega)]
      simp [List.getElem?_take]
    · rw [if_neg hn]
      have hnil : w.stack = [] := by
        cases hs : w.stack with
        | nil => rfl
        | cons f rest => rw [hs] at hn; simp at hn
      simp [hnil]
  unfold Caller reported
  exact congrArg (fun fr : Frame =>
    stringsReplace1 (sprintfFileLine fr.File fr.Line) (w.getwd.getD "" ++ "/") "") hframe

theorem replaceFirst_cases (old new : List Char) :
    ∀ s : List Char, replaceFirst old new s = s ∨
      ∃ pre post, s = pre ++ old ++ post ∧ replaceFirst old new s = pre ++ new ++ post := by
  intro s
  induction s with
  | nil =>
    by_cases ho : old = []
    · right
      exact ⟨[], [], by simp [ho], by simp [replaceFirst, ho]⟩
    · left
      simp [replaceFirst, ho]
  | cons c cs ih =>
    by_cases hp : old.isPrefixOf (c :: cs) = true
    · right
      obtain ⟨t, ht⟩ := List.isPrefixOf_iff_prefix.mp hp
      refine ⟨[], t, by simpa using ht.symm, ?_⟩
      rw [replaceFirst, if_pos hp, ← ht]
      simp
    · rcases ih with hsame | ⟨pre, post, hs, hr⟩
      · left
        rw [replaceFirst, if_neg hp, hsame]
      · right
        refine ⟨c :: pre, post, by simp [hs], ?_⟩
        rw [replaceFirst, if_neg hp, hr]
        simp

theorem replaceFirst_of_not_mem (old new s : List Char) (c : Char) (hc : c ∈ old)
    (hs : c ∉ s) : replaceFirst old new s = s := by
  rcases replaceFirst_cases old new s with hsame | ⟨pre, post, hsplit, -⟩
  · exact hsame
  · exact absurd (by rw [hsplit]; simp [hc]) hs

theorem replaceFirst_ne_nil (root s : List Char) (d : Char) (hd : d ≠ '/') :
    replaceFirst (root ++ ['/']) [] (s ++ [d]) ≠ [] := by
  rcases replaceFirst_cases (root ++ ['/']) [] (s ++ [d]) with hsame | ⟨pre, post, hsplit, hr⟩
  · rw [hsame]; simp
  · rw [hr]
    intro hnil
    have hboth : pre = [] ∧ post = [] := by simpa using hnil
    have hpost : post = [] := hboth.2
    subst hpost
    have h1 : s ++ [d] = (pre ++ root) ++ ['/'] := by simpa using hsplit
    have := (List.append_inj' h1 rfl).2
    simp at this
    exact hd this

theorem toDigitsCore_append (b : Nat) :
    ∀ (fuel n : Nat) (ds : List Char),
      ∃ pre, Nat.toDigitsCore b fuel n ds = pre ++ ds := by
  intro fuel
  induction fuel with
  | zero => intro n ds; exact ⟨[], by simp [Nat.toDigitsCore]⟩
  | succ f ih =>
    intro n ds
    by_cases hx : n / b = 0
    · exact ⟨[Nat.digitChar (n % b)], by simp [Nat.toDigitsCore, hx]⟩
    · obtain ⟨pre, hpre⟩ := ih (n / b) (Nat.digitChar (n % b) :: ds)
      exact ⟨pre ++ [Nat.digitChar (n % b)], by simp [Nat.toDigitsCore, hx, hpre]⟩

theorem toString_nat_data (n : Nat) :
    ∃ pre, (toString n).data = pre ++ [Nat.digitChar (n % 10)] := by
  show ∃ pre, (Nat.repr n).data = pre ++ [Nat.digitChar (n % 10)]
  unfold Nat.repr Nat.toDigits
  by_cases hx : n / 10 = 0
  · exact ⟨[], by simp [Nat.toDigitsCore, hx, List.asString]⟩
  · obtain ⟨pre, hpre⟩ := toDigitsCore_append 10 n (n / 10) [Nat.digitChar (n % 10)]
    exact ⟨pre, by simp [Nat.toDigitsCore, hx, hpre, List.asString]⟩

theorem digitChar_ne_slash (n : Nat) : Nat.digitChar (n % 10) ≠ '/' := by
  have h : n % 10 < 10 := Nat.mod_lt _ (by decide)
  generalize n % 10 = k at h
  interval_cases k <;> decide

theorem sprintfFileLine_data (file : String) (line : Nat) :
    ∃ s, (sprintfFileLine file line).data = s ++ [Nat.digitChar (line % 10)] := by
  obtain ⟨pre, hpre⟩ := toString_nat_data line
  exact ⟨file.data ++ ":".data ++ pre, by simp [sprintfFileLine, String.data_append, hpre]⟩

theorem reported_ne_empty (w : World) (f : Frame) : 1 ≤ (reported w f).length := by
  obtain ⟨s, hs⟩ := sprintfFileLine_data f.File f.Line
  have hne := replaceFirst_ne_nil (w.getwd.getD "").data s _ (digitChar_ne_slash f.Line)
  unfold reported stringsReplace1
  rw [hs]
  have hold : (w.getwd.getD "" ++ "/").data = (w.getwd.getD "").data ++ ['/'] := by
    simp [String.data_append]
  rw [hold]
  show 1 ≤ (replaceFirst ((w.getwd.getD "").data ++ ['/']) "".data (s ++ [_])).length
  exact List.length_pos.mpr hne

theorem Caller_short_stack (w : World) (skip : Nat) (hshort : w.stack.length ≤ skip + 2) :
    Caller w skip = ":0" := by
  rw [Caller_eq_reported, List.getElem?_eq_none hshort]
  show stringsReplace1 ":0" (w.getwd.getD "" ++ "/") "" = ":0"
  unfold stringsReplace1
  have hold : (w.getwd.getD "" ++ "/").data = (w.getwd.getD "").data ++ ['/'] := by
    simp [String.data_append]
  rw [hold, replaceFirst_of_not_mem _ _ ":0".data '/' (by simp) (by decide)]

theorem Caller_length_pos (w : World) (skip : Nat) : 1 ≤ (Caller w skip).length := by
  rw [Caller_eq_reported]
  exact reported_ne_empty w _

theorem wrapInt_of_range (i : Int) (hlo : -(2 ^ 63) ≤ i) (hhi : i < 2 ^ 63) :
    wrapInt i = i := by
  unfold wrapInt
  rw [Int.emod_eq_of_lt (by omega) (by omega)]
  omega

theorem CallerInt_eq_Caller (maxLen : Nat) (w : World) (skip : Nat)
    (hlen : skip + 4 ≤ maxLen) (hint : skip + 4 < 2 ^ 63) :
    CallerInt maxLen w skip = .ok (Caller w skip) := by
  have hint1 : ((skip : Int) + 4) < 2 ^ 63 := by exact_mod_cast hint
  have ht : wrapInt ((skip : Int) + 2) = ((skip + 2 : Nat) : Int) := by
    rw [wrapInt_of_range _ (by omega) (by omega)]; push_cast; ring
  have hs : wrapInt (((skip + 2 : Nat) : Int) + 2) = ((skip + 2 + 2 : Nat) : Int) := by
    rw [wrapInt_of_range _ (by push_cast; omega) (by push_cast; omega)]; push_cast; ring
  have hguard : ¬ ((((skip + 2 + 2 : Nat) : Int)) < 0 ∨
      (maxLen : Int) < ((skip + 2 + 2 : Nat) : Int)) := by
    push_cast; omega
  unfold CallerInt Caller
  simp only [ht, hs, if_neg hguard, Int.toNat_ofNat]
  have hnn : (0 : Int) ≤ ((skip + 2 : Nat) : Int) := Int.ofNat_nonneg _
  simp only [hnn, and_true]

theorem CallerInt_ok_reported (maxLen : Nat) (w : World) (skip : Int) (s : String)
    (hs : CallerInt maxLen w skip = .ok s) : ∃ f, s = reported w f := by
  unfold CallerInt at hs
  simp only at hs
  split at hs
  · cases hs
  · exact ⟨_, (Outcome.ok.inj hs).symm⟩

/-! ## Lemmas on chains -/

theorem not_isRoot_of_hasParent {V : Type} (h : Heap V) (c p : GoError)
    (hp : HasParent h c p) : ¬ IsRoot h c := by
  rcases c with _ | ⟨i, t⟩ | q
  · simp [HasParent] at hp
  · simp [HasParent] at hp
  · simp only [HasParent, IsRoot] at hp ⊢
    cases hd : deref h q with
    | none => simp [hd] at hp
    | some r =>
      simp only [hd] at hp ⊢
      simp [hp]

theorem not_hasParent_of_isRoot {V : Type} (h : Heap V) (c : GoError) (hc : IsRoot h c)
    (p : GoError) : ¬ HasParent h c p :=
  fun hp => not_isRoot_of_hasParent h c p hp hc

theorem IsChain_getLast {V : Type} (h : Heap V) :
    ∀ (rest : List GoError) (e : GoError), IsChain h (e :: rest) →
      IsRoot h ((e :: rest).getLast (List.cons_ne_nil e rest)) := by
  intro rest
  induction rest with
  | nil => intro e hc; simpa using hc
  | cons p rest ih =>
    intro e hc
    simpa using ih p hc.2

theorem IsChain_dropLast {V : Type} (h : Heap V) :
    ∀ (rest : List GoError) (e : GoError), IsChain h (e :: rest) →
      ∀ x ∈ (e :: rest).dropLast, ¬ IsRoot h x := by
  intro rest
  induction rest with
  | nil => intro e _ x hx; simp at hx
  | cons p rest ih =>
    intro e hc x hx
    rw [List.dropLast_cons₂, List.mem_cons] at hx
    rcases hx with rfl | hx
    · exact not_isRoot_of_hasParent h _ p hc.1
    · exact ih p hc.2 x hx

theorem Cause_needs_fuel {V : Type} (h : Heap V) :
    ∀ (rest : List GoError) (e : GoError), IsChain h (e :: rest) →
      Cause h rest.length e = .diverge := by
  intro rest
  induction rest with
  | nil => intro e _; rfl
  | cons p rest ih =>
    intro e hc
    rw [List.length_cons, Cause_of_hasParent h rest.length e p hc.1]
    exact ih p hc.2

theorem ListOf_needs_fuel {V : Type} (h : Heap V) :
    ∀ (rest : List GoError) (e : GoError), IsChain h (e :: rest) →
      ListOf h rest.length e = .diverge := by
  intro rest
  induction rest with
  | nil => intro e _; rfl
  | cons p rest ih =>
    intro e hc
    rw [List.length_cons, ListOf_of_hasParent h rest.length e p hc.1, ih p hc.2]
    rfl

theorem Cause_ok_isRoot {V : Type} (h : Heap V) :
    ∀ (n : Nat) (x y : GoError), Cause h n x = .ok y → IsRoot h y := by
  intro n
  induction n with
  | zero => intro x y hxy; simp [Cause] at hxy
  | succ n ih =>
    intro x y hxy
    rcases x with _ | ⟨i, t⟩ | q
    · simp only [Cause, Outcome.ok.injEq] at hxy
      subst hxy; trivial
    · simp only [Cause, Outcome.ok.injEq] at hxy
      subst hxy; trivial
    · cases hd : deref h q with
      | none => simp [Cause, hd] at hxy
      | some r =>
        cases hP : r.Parent with
        | none =>
          simp only [Cause, hd, hP, Outcome.ok.injEq] at hxy
          subst hxy
          simp [IsRoot, hd, hP]
        | some p =>
          simp only [Cause, hd, hP] at hxy
          exact ih p y hxy

theorem joinSemicolon_cons_cons (s t : String) (rest : List String) :
    joinSemicolon (s :: t :: rest) = s ++ "; " ++ joinSemicolon (t :: rest) := rfl

theorem joinSemicolon_length :
    ∀ ss : List String,
      (joinSemicolon ss).length = (ss.map String.length).sum + 2 * (ss.length - 1) := by
  intro ss
  induction ss with
  | nil => rfl
  | cons s rest ih =>
    cases rest with
    | nil => simp [joinSemicolon]
    | cons t rest1 =>
      rw [joinSemicolon_cons_cons, String.length_append, String.length_append, ih]
      have h2 : "; ".length = 2 := rfl
      simp only [List.map_cons, List.sum_cons, List.length_cons, h2]
      omega

theorem intercalate_go_eq (sep : String) :
    ∀ (l : List String) (acc : String),
      String.intercalate.go acc sep l = (l.foldl (fun a x => a ++ sep ++ x) acc) := by
  intro l
  induction l with
  | nil => intro acc; rfl
  | cons x rest ih => intro acc; simp [String.intercalate.go, ih]

theorem foldl_join_eq :
    ∀ (rest : List String) (acc t : String),
      (t :: rest).foldl (fun a x => a ++ "; " ++ x) acc =
        acc ++ "; " ++ joinSemicolon (t :: rest) := by
  intro rest
  induction rest with
  | nil => intro acc t; rfl
  | cons u rest ih =>
    intro acc t
    rw [List.foldl_cons, ih, joinSemicolon_cons_cons]
    simp [String.append_assoc]

theorem joinSemicolon_eq_intercalate (ss : List String) :
    joinSemicolon ss = "; ".intercalate ss := by
  cases ss with
  | nil => rfl
  | cons s rest =>
    cases rest with
    | nil => rfl
    | cons t rest1 =>
      rw [joinSemicolon_cons_cons]
      show _ = String.intercalate.go s "; " (t :: rest1)
      rw [intercalate_go_eq, foldl_join_eq]

theorem Error_chain {V : Type} (h : Heap V) :
    ∀ (rest : List GoError) (a : Addr), IsChain h (.ptr (some a) :: rest) →
      ∀ fuel, rest.length + 1 ≤ fuel →
        Error.Error h fuel (some a) =
          .ok (joinSemicolon ((GoError.ptr (some a) :: rest).map (elementText h))) := by
  intro rest
  induction rest with
  | nil =>
    intro a hc fuel hf
    obtain ⟨k, rfl⟩ : ∃ k, fuel = k + 1 := ⟨fuel - 1, by omega⟩
    simp only [IsChain, IsRoot, deref] at hc
    cases ha : h[a]? with
    | none => simp [ha] at hc
    | some r =>
      simp only [ha] at hc
      rw [Error_noParent h k a r ha hc]
      simp [joinSemicolon, elementText, deref, ha]
  | cons p rest ih =>
    intro a hc fuel hf
    obtain ⟨k, rfl⟩ : ∃ k, fuel = k + 1 := ⟨fuel - 1, by omega⟩
    obtain ⟨hp, hrest⟩ := hc
    simp only [HasParent, deref] at hp
    cases ha : h[a]? with
    | none => simp [ha] at hp
    | some r =>
      simp only [ha] at hp
      have hhead : elementText h (.ptr (some a)) = r.Msg := by
        simp [elementText, deref, ha]
      rw [List.map_cons, List.map_cons, joinSemicolon_cons_cons, hhead]
      rcases p with _ | ⟨i, t⟩ | q
      · cases rest with
        | nil => rw [Error_parentNil h k a r ha hp]; rfl
        | cons x rest1 => exact absurd hrest.1 (by simp [HasParent])
      · cases rest with
        | nil => rw [Error_parentExt h k a r i t ha hp]; rfl
        | cons x rest1 => exact absurd hrest.1 (by simp [HasParent])
      · rcases q with _ | b
        · cases rest with
          | nil => exact absurd hrest (by simp [IsChain, IsRoot, deref])
          | cons x rest1 => exact absurd hrest.1 (by simp [HasParent, deref])
        · rw [Error_parentPtr h k a b r ha hp,
            ih b hrest k (by simp only [List.length_cons] at hf; omega)]
          rfl

/-! ## The claims -/

/-- C1: an `Error` whose parent is set renders as its message, then `"; "`, then the string
form of the parent: the text of a foreign error, and the rendering by this same rule of a
parent that is itself an `Error`. In particular `New(m2).SetParent(New(m1)).Error()` is
`m2 ++ "; " ++ m1`. -/
theorem c1_error_is_msg_then_parent {V : Type} (h : Heap V) (a : Addr) (r : Error V)
    (p : GoError) (ha : h[a]? = some r) (hp : r.Parent = some p)
    (w1 w2 : World) (h0 : Heap V) (m1 m2 : String) :
    (∀ i t, p = .ext i t →
        ∀ fuel, Error.Error h (fuel + 1) (some a) = .ok (r.Msg ++ "; " ++ t)) ∧
    (∀ b, p = .ptr (some b) →
        ∀ fuel, Error.Error h (fuel + 1) (some a) =
          (Error.Error h fuel (some b)).map (fun s => r.Msg ++ "; " ++ s)) ∧
    (∀ b s n, p = .ptr (some b) → Error.Error h n (some b) = .ok s →
        ∀ fuel, n < fuel → Error.Error h fuel (some a) = .ok (r.Msg ++ "; " ++ s)) ∧
    (∃ h3,
        Error.SetParent (New w2 (New w1 h0 m2).1 m1).1 (New w1 h0 m2).2
            (.ptr (New w2 (New w1 h0 m2).1 m1).2) = .ok (h3, (New w1 h0 m2).2) ∧
          ∀ fuel, 2 ≤ fuel → Error.Error h3 fuel (New w1 h0 m2).2 = .ok (m2 ++ "; " ++ m1)) := by
  refine ⟨?_, ?_, ?_, ?_⟩
  · intro i t hpe fuel
    exact Error_parentExt h fuel a r i t ha (hpe ▸ hp)
  · intro b hpb fuel
    exact Error_parentPtr h fuel a b r ha (hpb ▸ hp)
  · intro b s n hpb hs fuel hf
    obtain ⟨k, rfl⟩ : ∃ k, fuel = k + 1 := ⟨fuel - 1, by omega⟩
    rw [Error_parentPtr h k a b r ha (hpb ▸ hp), Error_mono h n (some b) s hs k (by omega)]
    rfl
  · have e0 := New_lookup_old w2 _ m1 _ _ (New_lookup_new w1 h0 m2)
    have e1 := New_lookup_new w2 (New w1 h0 m2).1 m1
    have hne : (New w1 h0 m2).1.length ≠ h0.length := by rw [New_length]; omega
    refine ⟨_, SetParent_ok _ _ _ _ e0, ?_⟩
    intro fuel hf
    obtain ⟨k, rfl⟩ : ∃ k, fuel = k + 1 + 1 := ⟨fuel - 2, by omega⟩
    have e1' := (lookup_set_ne (New w2 (New w1 h0 m2).1 m1).1 h0.length _
      { Msg := m2, Parent := some (.ptr (New w2 (New w1 h0 m2).1 m1).2), Args := some ∅,
        Caller := Caller w1 1 } hne).trans e1
    show Error.Error _ (k + 1 + 1) (some h0.length) = _
    rw [Error_parentPtr _ _ _ (New w1 h0 m2).1.length _ (lookup_set_self _ _ _ _ e0) rfl,
      Error_noParent _ _ _ _ e1' rfl]
    rfl

/-- C1 at record 0 of the example heap, whose parent is record 1. -/
theorem c1_error_is_msg_then_parent_witness :
    exampleHeap[0]? = some
        { Msg := "operation update failed", Parent := some (.ptr (some 1)),
          Args := some exampleArgs, Caller := "app/main.go:12" } ∧
      Error.Error exampleHeap 1 (some 1) = .ok "low-level failure" ∧
      Error.Error exampleHeap 2 (some 0) = .ok "operation update failed; low-level failure" :=
  ⟨rfl, rfl,
    (c1_error_is_msg_then_parent exampleHeap 0 _ (.ptr (some 1)) rfl rfl exampleWorld
      exampleWorld [] "a" "b").2.2.1 1 "low-level failure" 1 rfl rfl 2 (by decide)⟩

/-- C2: a record made by `New` renders as exactly its message. -/
theorem c2_new_renders_message {V : Type} (w : World) (h : Heap V) (m : String) (fuel : Nat) :
    Error.Error (New w h m).1 (fuel + 1) (New w h m).2 = .ok m :=
  Error_noParent _ fuel h.length _ (New_lookup_new w h m) rfl

/-- C3 fails on the code: the wrapping message is printed first and the cause last, so
`New("my error").SetParent(err)` with `err` printing as `something err` renders as
`my error; something err`, not as `something err; my error`. -/
theorem c3_wrapping_message_is_printed_first :
    ∃ h1 : Heap Nat,
      Error.SetParent (New exampleWorld ([] : Heap Nat) "my error").1
          (New exampleWorld ([] : Heap Nat) "my error").2 (.ext 0 "something err") =
        .ok (h1, some 0) ∧
      (∀ fuel, Error.Error h1 (fuel + 1) (some 0) = .ok "my error; something err") ∧
      (∀ fuel, Error.Error h1 fuel (some 0) ≠ .ok "something err; my error") := by
  refine ⟨_, rfl, fun fuel => rfl, fun fuel => ?_⟩
  cases fuel with
  | zero => simp [Error.Error]
  | succ k =>
    show Outcome.ok "my error; something err" ≠ Outcome.ok "something err; my error"
    decide

/-- C4: on a chain `e :: rest` (each element an `Error` whose parent is the next one, the last
one an `Error` with no parent or not an `Error`), `Cause` returns the last element, given
at least as many calls as the chain is long; for a chain of one element that is the error
passed in. -/
theorem c4_cause_returns_innermost {V : Type} (h : Heap V) (e : GoError)
    (rest : List GoError) (hc : IsChain h (e :: rest)) (fuel : Nat)
    (hf : rest.length + 1 ≤ fuel) :
    Cause h fuel e = .ok ((e :: rest).getLast (List.cons_ne_nil e rest)) ∧
      (rest = [] → Cause h fuel e = .ok e) := by
  have hmain := Cause_chain h rest e hc fuel hf
  refine ⟨hmain, ?_⟩
  intro hr
  subst hr
  simpa using hmain

/-- C4 on the example heap: the cause of record 0 is record 1. -/
theorem c4_cause_returns_innermost_witness :
    IsChain exampleHeap [.ptr (some 0), .ptr (some 1)] ∧
      Cause exampleHeap 2 (.ptr (some 0)) = .ok (.ptr (some 1)) :=
  ⟨⟨rfl, rfl⟩,
    (c4_cause_returns_innermost exampleHeap (.ptr (some 0)) [.ptr (some 1)] ⟨rfl, rfl⟩ 2
      (by decide)).1⟩

/-- C5: on a chain `e :: rest`, `List` returns the elements of the chain with the root cause
first and `e` last; it is the list of the parent followed by `e` when `e` has a parent, and
`[e]` when it has none. -/
theorem c5_list_is_chain_root_first {V : Type} (h : Heap V) (e : GoError)
    (rest : List GoError) (hc : IsChain h (e :: rest)) (fuel : Nat)
    (hf : rest.length + 1 ≤ fuel) :
    ListOf h fuel e = .ok (e :: rest).reverse ∧
      (∀ p rest1, rest = p :: rest1 →
        ∃ lp, ListOf h fuel p = .ok lp ∧ ListOf h fuel e = .ok (lp ++ [e])) ∧
      (rest = [] → ListOf h fuel e = .ok [e]) := by
  have hmain := ListOf_chain h rest e hc fuel hf
  refine ⟨hmain, ?_, ?_⟩
  · intro p rest1 hr
    subst hr
    refine ⟨(p :: rest1).reverse, ListOf_chain h rest1 p hc.2 fuel ?_, ?_⟩
    · simp only [List.length_cons] at hf; omega
    · rw [hmain]; simp
  · intro hr
    subst hr
    simpa using hmain

/-- C5 on the example heap: the list of record 0 is record 1, then record 0. -/
theorem c5_list_is_chain_root_first_witness :
    IsChain exampleHeap [.ptr (some 0), .ptr (some 1)] ∧
      ListOf exampleHeap 2 (.ptr (some 0)) = .ok [.ptr (some 1), .ptr (some 0)] :=
  ⟨⟨rfl, rfl⟩,
    (c5_list_is_chain_root_first exampleHeap (.ptr (some 0)) [.ptr (some 1)] ⟨rfl, rfl⟩ 2
      (by decide)).1⟩

/-- C6: for an error that is not an `Error`, `List` returns the list of exactly that one
value. -/
theorem c6_list_of_foreign_error {V : Type} (h : Heap V) (err : GoError)
    (hne : err.isError = false) (fuel : Nat) :
    ListOf h (fuel + 1) err = .ok [err] ∧ [err].length = 1 := by
  refine ⟨?_, rfl⟩
  rcases err with _ | ⟨i, t⟩ | p
  · rfl
  · rfl
  · simp [GoError.isError] at hne

/-- C6 for a foreign error on the example heap. -/
theorem c6_list_of_foreign_error_witness :
    (GoError.ext 0 "something err").isError = false ∧
      ListOf exampleHeap 1 (.ext 0 "something err") = .ok [.ext 0 "something err"] :=
  ⟨rfl, (c6_list_of_foreign_error exampleHeap (.ext 0 "something err") rfl 0).1⟩

/-- C7: on a record whose argument map has been made, `SetArg(k, v)` returns the record it was
called on, sets `Args[k]` to `v` and leaves every other key, every other field and every
other record as they were; a second identical call changes nothing; a further call
`SetArg(k, w)` sets `Args[k]` to `w` and leaves the keys as they were, each once. -/
theorem c7_setArg_inserts_and_overwrites {V : Type} (h : Heap V) (a : Addr) (r : Error V)
    (m : GoMap V) (k : String) (v w : V) (ha : h[a]? = some r) (hm : r.Args = some m) :
    ∃ h1 h2 m1 m2,
      Error.SetArg h (some a) k v = .ok (h1, some a) ∧
      h1[a]? = some { r with Args := some m1 } ∧
      m1.lookup k = some v ∧
      (∀ k1, k1 ≠ k → m1.lookup k1 = m.lookup k1) ∧
      (∀ b, b ≠ a → h1[b]? = h[b]?) ∧
      Error.SetArg h1 (some a) k v = .ok (h1, some a) ∧
      Error.SetArg h1 (some a) k w = .ok (h2, some a) ∧
      h2[a]? = some { r with Args := some m2 } ∧
      m2.lookup k = some w ∧
      (∀ k1, k1 ≠ k → m2.lookup k1 = m.lookup k1) ∧
      m2.keys = m1.keys ∧ m2.keys.Nodup := by
  have h1a := lookup_set_self h a r { r with Args := some (m.insert k v) } ha
  refine ⟨h.set a { r with Args := some (m.insert k v) },
    h.set a { r with Args := some (m.insert k w) }, m.insert k v, m.insert k w,
    SetArg_ok h a r m k v ha hm, h1a, AList.lookup_insert m,
    fun k1 hk => AList.lookup_insert_ne hk, fun b hb => lookup_set_ne h a b _ hb, ?_, ?_,
    lookup_set_self h a r _ ha, AList.lookup_insert m,
    fun k1 hk => AList.lookup_insert_ne hk, ?_, AList.keys_nodup _⟩
  · rw [SetArg_ok _ a _ (m.insert k v) k v h1a rfl]
    simp only [AList.insert_insert, List.set_set]
  · rw [SetArg_ok _ a _ (m.insert k v) k w h1a rfl]
    simp only [AList.insert_insert, List.set_set]
  · simp only [AList.keys_insert]

/-- C7 at record 0 of the example heap, whose arguments hold `id`. -/
theorem c7_setArg_inserts_and_overwrites_witness :
    exampleHeap[0]? = some
        { Msg := "operation update failed", Parent := some (.ptr (some 1)),
          Args := some exampleArgs, Caller := "app/main.go:12" } ∧
      ∃ h1 h2 m1 m2,
        Error.SetArg exampleHeap (some 0) "id" 7 = .ok (h1, some 0) ∧
        h1[0]? = some
          { Msg := "operation update failed", Parent := some (.ptr (some 1)),
            Args := some m1, Caller := "app/main.go:12" } ∧
        m1.lookup "id" = some 7 ∧
        (∀ k1, k1 ≠ "id" → m1.lookup k1 = exampleArgs.lookup k1) ∧
        (∀ b, b ≠ 0 → h1[b]? = exampleHeap[b]?) ∧
        Error.SetArg h1 (some 0) "id" 7 = .ok (h1, some 0) ∧
        Error.SetArg h1 (some 0) "id" 8 = .ok (h2, some 0) ∧
        h2[0]? = some
          { Msg := "operation update failed", Parent := some (.ptr (some 1)),
            Args := some m2, Caller := "app/main.go:12" } ∧
        m2.lookup "id" = some 8 ∧
        (∀ k1, k1 ≠ "id" → m2.lookup k1 = exampleArgs.lookup k1) ∧
        m2.keys = m1.keys ∧ m2.keys.Nodup :=
  ⟨rfl, c7_setArg_inserts_and_overwrites exampleHeap 0 _ exampleArgs "id" 7 8
    rfl rfl⟩

/-- C8: the arguments are not rendered. After `SetArg` every record renders as before, and
two heaps whose records differ only in `Args` render every record alike. -/
theorem c8_args_are_not_rendered {V : Type} (h : Heap V) (a : Addr) (r : Error V)
    (m : GoMap V) (k : String) (v : V) (ha : h[a]? = some r) (hm : r.Args = some m)
    (h2 : Heap V) (hsame : h2.map eraseArgs = h.map eraseArgs) :
    (∃ h1, Error.SetArg h (some a) k v = .ok (h1, some a) ∧
        ∀ fuel e, Error.Error h1 fuel e = Error.Error h fuel e) ∧
      (∀ fuel e, Error.Error h2 fuel e = Error.Error h fuel e) := by
  refine ⟨⟨_, SetArg_ok h a r m k v ha hm, ?_⟩, ?_⟩
  · exact Error_congr h _ (eraseArgs_set h a r _ ha rfl)
  · apply Error_congr h h2
    intro b
    have := congrArg (fun l => l[b]?) hsame
    simpa [List.getElem?_map] using this

/-- C8 at record 1 of the example heap, which is the parent of record 0. -/
theorem c8_args_are_not_rendered_witness :
    exampleHeap[1]? = some
        { Msg := "low-level failure", Parent := none, Args := some ∅,
          Caller := "app/io.go:7" } ∧
      (∃ h1, Error.SetArg exampleHeap (some 1) "id" 7 = .ok (h1, some 1) ∧
        ∀ fuel e, Error.Error h1 fuel e = Error.Error exampleHeap fuel e) ∧
      (∀ fuel e, Error.Error (exampleHeap.map eraseArgs) fuel e =
        Error.Error exampleHeap fuel e) :=
  ⟨rfl, c8_args_are_not_rendered exampleHeap 1 _ ∅ "id" 7 rfl rfl
    (exampleHeap.map eraseArgs) rfl⟩

/-- C9: `SetParent` returns the record it was called on, changes no field but `Parent` and no
other record, and a second call overwrites the parent: after `SetParent(a).SetParent(b)`
the heap is the one `SetParent(b)` alone gives, so `Cause`, `List` and `Error` continue
with `b`. -/
theorem c9_setParent_overwrites {V : Type} (h : Heap V) (x : Addr) (r : Error V)
    (hx : h[x]? = some r) (a b : GoError) :
    ∃ h1 h2,
      Error.SetParent h (some x) a = .ok (h1, some x) ∧
      h1[x]? = some { r with Parent := some a } ∧
      Error.SetParent h1 (some x) b = .ok (h2, some x) ∧
      h2[x]? = some { r with Parent := some b } ∧
      Error.SetParent h (some x) b = .ok (h2, some x) ∧
      (∀ y, y ≠ x → h1[y]? = h[y]? ∧ h2[y]? = h[y]?) ∧
      (∀ fuel, Cause h2 (fuel + 1) (.ptr (some x)) = Cause h2 fuel b) ∧
      (∀ fuel, ListOf h2 (fuel + 1) (.ptr (some x)) =
        (ListOf h2 fuel b).map (fun l => l ++ [GoError.ptr (some x)])) ∧
      (∀ i t, b = .ext i t →
        ∀ fuel, Error.Error h2 (fuel + 1) (some x) = .ok (r.Msg ++ "; " ++ t)) ∧
      (∀ y, b = .ptr (some y) →
        ∀ fuel, Error.Error h2 (fuel + 1) (some x) =
          (Error.Error h2 fuel (some y)).map (fun s => r.Msg ++ "; " ++ s)) := by
  have h1x := lookup_set_self h x r { r with Parent := some a } hx
  have h2x := lookup_set_self h x r { r with Parent := some b } hx
  refine ⟨h.set x { r with Parent := some a }, h.set x { r with Parent := some b },
    SetParent_ok h x r a hx, h1x, ?_, h2x, SetParent_ok h x r b hx,
    fun y hy => ⟨lookup_set_ne h x y _ hy, lookup_set_ne h x y _ hy⟩, ?_, ?_, ?_, ?_⟩
  · rw [SetParent_ok _ x _ b h1x]
    simp only [List.set_set]
  · intro fuel
    exact Cause_of_hasParent _ fuel _ b (by simp only [HasParent, deref, h2x])
  · intro fuel
    exact ListOf_of_hasParent _ fuel _ b (by simp only [HasParent, deref, h2x])
  · intro i t hb fuel
    exact Error_parentExt _ fuel x { r with Parent := some b } i t h2x (by rw [hb])
  · intro y hb fuel
    exact Error_parentPtr _ fuel x y { r with Parent := some b } h2x (by rw [hb])

/-- C9 at record 1 of the example heap: first record 2, then a foreign error as parent. -/
theorem c9_setParent_overwrites_witness :
    exampleHeap[1]? = some
        { Msg := "low-level failure", Parent := none, Args := some ∅,
          Caller := "app/io.go:7" } ∧
      ∃ h2, Error.SetParent exampleHeap (some 1) (.ext 5 "disk full") = .ok (h2, some 1) ∧
        Error.Error h2 1 (some 1) = .ok "low-level failure; disk full" ∧
        Cause h2 2 (.ptr (some 1)) = .ok (.ext 5 "disk full") :=
  ⟨rfl,
    match c9_setParent_overwrites exampleHeap 1 _ rfl (.ptr (some 2)) (.ext 5 "disk full") with
    | ⟨_, h2, _, _, _, _, hb, _, hcause, _, hext, _⟩ =>
      ⟨h2, hb, hext 5 "disk full" rfl 0, (hcause 1).trans rfl⟩⟩

/-- C10: `New` and `Errorf` return a pointer to a new record with the given (formatted)
message, no parent and a made, empty argument map; whatever `SetArg` and `SetParent` calls
are then chained on it, they all succeed and return that record, its argument map is still
made and its message and call site are as constructed, so a further `SetArg` succeeds. -/
theorem c10_args_always_made {V : Type} (sprintf : String → List V → String) (w : World)
    (h : Heap V) (m format : String) (args : List V) (calls : List (Call V)) (k : String)
    (v : V) :
    ((New w h m).2 = some h.length ∧
      (New w h m).1[h.length]? =
        some { Msg := m, Parent := none, Args := some ∅, Caller := Caller w 1 } ∧
      ∃ h1 r1 m1 h2, runCalls (New w h m).1 (New w h m).2 calls = .ok (h1, (New w h m).2) ∧
        h1[h.length]? = some r1 ∧ r1.Args = some m1 ∧ r1.Msg = m ∧ r1.Caller = Caller w 1 ∧
        Error.SetArg h1 (New w h m).2 k v = .ok (h2, (New w h m).2)) ∧
    ((Errorf sprintf w h format args).2 = some h.length ∧
      (Errorf sprintf w h format args).1[h.length]? =
        some { Msg := sprintf format args, Parent := none, Args := some ∅,
               Caller := Caller w 1 } ∧
      ∃ h1 r1 m1 h2,
        runCalls (Errorf sprintf w h format args).1 (Errorf sprintf w h format args).2 calls =
          .ok (h1, (Errorf sprintf w h format args).2) ∧
        h1[h.length]? = some r1 ∧ r1.Args = some m1 ∧ r1.Msg = sprintf format args ∧
        r1.Caller = Caller w 1 ∧
        Error.SetArg h1 (Errorf sprintf w h format args).2 k v =
          .ok (h2, (Errorf sprintf w h format args).2)) := by
  refine ⟨⟨rfl, New_lookup_new w h m, ?_⟩, ⟨rfl, Errorf_lookup_new sprintf w h format args, ?_⟩⟩
  · obtain ⟨h1, r1, m1, hrun, h1a, hm1, hmsg, hcal⟩ :=
      runCalls_ok calls (New w h m).1 h.length _ ∅ (New_lookup_new w h m) rfl
    exact ⟨h1, r1, m1, _, hrun, h1a, hm1, hmsg, hcal, SetArg_ok h1 h.length r1 m1 k v h1a hm1⟩
  · obtain ⟨h1, r1, m1, hrun, h1a, hm1, hmsg, hcal⟩ :=
      runCalls_ok calls (Errorf sprintf w h format args).1 h.length _ ∅
        (Errorf_lookup_new sprintf w h format args) rfl
    exact ⟨h1, r1, m1, _, hrun, h1a, hm1, hmsg, hcal, SetArg_ok h1 h.length r1 m1 k v h1a hm1⟩

/-- C11: when the stack has a frame at index `skip + 2`, `Caller(skip)` reports the file and
line of that frame (with the working directory removed), so one more skipped frame reports
the frame one level up; the `Caller(1)` of `New` and `Errorf`, whose own frame is at index 2,
reports the frame at index 3, the call site of the constructor. -/
theorem c11_caller_reports_frame_skip_plus_two {V : Type} (w : World) (skip : Nat) (f : Frame)
    (hf : w.stack[skip + 2]? = some f) (sprintf : String → List V → String) (h : Heap V)
    (m format : String) (args : List V) :
    Caller w skip = reported w f ∧
      (∀ g, w.stack[skip + 3]? = some g → Caller w (skip + 1) = reported w g) ∧
      (∀ c, w.stack[3]? = some c →
        (New w h m).1[h.length]? =
            some { Msg := m, Parent := none, Args := some ∅, Caller := reported w c } ∧
          (Errorf sprintf w h format args).1[h.length]? =
            some { Msg := sprintf format args, Parent := none, Args := some ∅,
                   Caller := reported w c }) := by
  refine ⟨?_, ?_, ?_⟩
  · rw [Caller_eq_reported, hf]; rfl
  · intro g hg
    rw [Caller_eq_reported, hg]; rfl
  · intro c hc
    have hcall : Caller w 1 = reported w c := by
      rw [Caller_eq_reported, hc]; rfl
    rw [← hcall]
    exact ⟨New_lookup_new w h m, Errorf_lookup_new sprintf w h format args⟩

/-- C11 on the example stack: `Caller(0)` reports the line of `New` that calls it, `Caller(1)`
the line of `main.main` that calls `New`. -/
theorem c11_caller_reports_frame_skip_plus_two_witness :
    exampleWorld.stack[0 + 2]? =
        some { Function := "errors.New", File := "/home/dev/errors/errors.go", Line := 79 } ∧
      Caller exampleWorld 0 = "errors/errors.go:79" ∧
      Caller exampleWorld (0 + 1) = "app/main.go:12" :=
  ⟨rfl,
    (c11_caller_reports_frame_skip_plus_two (V := Nat) exampleWorld 0 _ rfl
      (fun s _ => s) [] "m" "f" []).1.trans (by decide),
    ((c11_caller_reports_frame_skip_plus_two (V := Nat) exampleWorld 0 _ rfl
      (fun s _ => s) [] "m" "f" []).2.1
        { Function := "main.main", File := "/home/dev/app/main.go", Line := 12 } rfl).trans
      (by decide)⟩

/-- C12 as stated fails: when `main.main` calls `Caller(3)` the stack has no frame at index
5 and `Caller` returns `:0`, not `unknown:0`; and `Caller(1 << 62)` panics, the slice of
program counters cannot be made. -/
theorem c12_placeholder_is_not_unknown :
    directWorld.stack.length ≤ 3 + 2 ∧
      CallerInt (2 ^ 45) directWorld 3 = .ok ":0" ∧
      CallerInt (2 ^ 45) directWorld 3 ≠ .ok "unknown:0" ∧
      CallerInt (2 ^ 45) directWorld (2 ^ 62) = .panic := by
  decide

/-- C12, amended: for a `skip` that is not negative and for which the slice of `skip + 4`
program counters can be made, when the stack has no frame at index `skip + 2`, `Caller(skip)`
does not panic and returns `:0`, the empty file name and line 0 of the placeholder frame, for
every working directory; the function name `unknown` of the placeholder is not printed. -/
theorem c12_short_stack_gives_colon_zero (maxLen : Nat) (w : World) (skip : Nat)
    (hlen : skip + 4 ≤ maxLen) (hint : skip + 4 < 2 ^ 63)
    (hshort : w.stack.length ≤ skip + 2) : CallerInt maxLen w skip = .ok ":0" := by
  rw [CallerInt_eq_Caller maxLen w skip hlen hint, Caller_short_stack w skip hshort]

/-- C12 amended, for `Caller(3)` called by `main.main`. -/
theorem c12_short_stack_gives_colon_zero_witness :
    3 + 4 ≤ 2 ^ 45 ∧ 3 + 4 < 2 ^ 63 ∧ directWorld.stack.length ≤ 3 + 2 ∧
      CallerInt (2 ^ 45) directWorld (3 : Nat) = .ok ":0" :=
  ⟨by decide, by decide, by decide,
    c12_short_stack_gives_colon_zero (2 ^ 45) directWorld 3 (by decide) (by decide)
      (by decide)⟩

/-- C13 fails on the code: the text `/backup/home/dev/app/main.go:12` does not start with the
working directory `/home/dev` followed by `/`, yet `Caller` does not return it unchanged;
the occurrence in the middle of the path is removed. -/
theorem c13_occurrence_inside_the_path_is_removed :
    nestedWorld.getwd = some "/home/dev" ∧
      nestedWorld.stack[1 + 2]? =
        some { Function := "main.main", File := "/backup/home/dev/app/main.go", Line := 12 } ∧
      List.isPrefixOf "/home/dev/".data "/backup/home/dev/app/main.go:12".data = false ∧
      Caller nestedWorld 1 = "/backupapp/main.go:12" ∧
      Caller nestedWorld 1 ≠ "/backup/home/dev/app/main.go:12" := by
  refine ⟨rfl, rfl, by decide, by decide, by decide⟩

/-- C14 fails on the code: when `os.Getwd` fails the path is not left as it is; the first `/`
of `/home/dev/app/main.go:12` is removed. -/
theorem c14_failed_getwd_removes_first_slash :
    lostWorld.getwd = none ∧
      lostWorld.stack[1 + 2]? =
        some { Function := "main.main", File := "/home/dev/app/main.go", Line := 12 } ∧
      Caller lostWorld 1 = "home/dev/app/main.go:12" ∧
      Caller lostWorld 1 ≠ "/home/dev/app/main.go:12" := by
  refine ⟨rfl, rfl, by decide, by decide⟩

/-- C15: a string returned by `Caller` is never empty, whatever the stack, the number of
skipped frames and the working directory, also when the placeholder frame is used; `Caller`
does return for every `skip` that is not negative and for which the slice of `skip + 4`
program counters can be made; and the `Caller` field of a record made by `New` or `Errorf`,
the result of `Caller(1)`, is not empty. -/
theorem c15_caller_is_never_empty {V : Type} (sprintf : String → List V → String)
    (maxLen : Nat) (w : World) (skip : Int) (s : String)
    (hs : CallerInt maxLen w skip = .ok s) (h : Heap V) (m format : String) (args : List V) :
    1 ≤ s.length ∧
      (∀ k : Nat, k + 4 ≤ maxLen → k + 4 < 2 ^ 63 →
        ∃ t, CallerInt maxLen w k = .ok t ∧ 1 ≤ t.length) ∧
      (∃ r, (New w h m).1[h.length]? = some r ∧ 1 ≤ r.Caller.length ∧
        (5 ≤ maxLen → CallerInt maxLen w 1 = .ok r.Caller)) ∧
      (∃ r, (Errorf sprintf w h format args).1[h.length]? = some r ∧ 1 ≤ r.Caller.length ∧
        (5 ≤ maxLen → CallerInt maxLen w 1 = .ok r.Caller)) := by
  have hone : 5 ≤ maxLen → CallerInt maxLen w 1 = .ok (Caller w 1) := fun h5 =>
    CallerInt_eq_Caller maxLen w 1 h5 (by decide)
  refine ⟨?_, ?_, ⟨_, New_lookup_new w h m, Caller_length_pos w 1, hone⟩,
    ⟨_, Errorf_lookup_new sprintf w h format args, Caller_length_pos w 1, hone⟩⟩
  · obtain ⟨f, rfl⟩ := CallerInt_ok_reported maxLen w skip s hs
    exact reported_ne_empty w f
  · intro k hk hk63
    exact ⟨_, CallerInt_eq_Caller maxLen w k hk hk63, Caller_length_pos w k⟩

/-- C15 for the `Caller(1)` of a constructor called by `main.main`. -/
theorem c15_caller_is_never_empty_witness :
    CallerInt (2 ^ 45) exampleWorld 1 = .ok "app/main.go:12" ∧
      1 ≤ "app/main.go:12".length :=
  ⟨by decide,
    (c15_caller_is_never_empty (V := Nat) (fun f _ => f) (2 ^ 45) exampleWorld 1
      "app/main.go:12" (by decide) [] "m" "f" []).1⟩

/-- C16: on a chain `e :: rest`, `Cause`, `List` and `Error` return a value, without panic,
as soon as they are allowed as many calls as the chain has elements, that is one call and a
recursive call per link; `Cause` and `List` need exactly that many. `Cause` stops at the
first element that is not an `Error` or has no parent: the last element of the chain, no
earlier one ends it. -/
theorem c16_total_on_chains {V : Type} (h : Heap V) (e : GoError) (rest : List GoError)
    (hc : IsChain h (e :: rest)) (fuel : Nat) (hf : rest.length + 1 ≤ fuel) :
    (∃ root, Cause h fuel e = .ok root ∧ IsRoot h root ∧
        root = (e :: rest).getLast (List.cons_ne_nil e rest) ∧
        ∀ x ∈ (e :: rest).dropLast, ¬ IsRoot h x) ∧
      (∃ l, ListOf h fuel e = .ok l ∧ l.length = rest.length + 1) ∧
      (∀ a, e = .ptr (some a) → ∃ s, Error.Error h fuel (some a) = .ok s) ∧
      Cause h rest.length e = .diverge ∧ ListOf h rest.length e = .diverge := by
  refine ⟨⟨_, Cause_chain h rest e hc fuel hf, IsChain_getLast h rest e hc, rfl,
    IsChain_dropLast h rest e hc⟩, ⟨_, ListOf_chain h rest e hc fuel hf, by simp⟩, ?_,
    Cause_needs_fuel h rest e hc, ListOf_needs_fuel h rest e hc⟩
  intro a ha
  subst ha
  exact ⟨_, Error_chain h rest a hc fuel hf⟩

/-- C16 on the example heap, for the chain from record 0 to record 1. -/
theorem c16_total_on_chains_witness :
    IsChain exampleHeap [.ptr (some 0), .ptr (some 1)] ∧
      Cause exampleHeap 2 (.ptr (some 0)) = .ok (.ptr (some 1)) ∧
      (∃ l, ListOf exampleHeap 2 (.ptr (some 0)) = .ok l ∧ l.length = 2) ∧
      (∃ s, Error.Error exampleHeap 2 (some 0) = .ok s) ∧
      Cause exampleHeap 1 (.ptr (some 0)) = .diverge :=
  ⟨⟨rfl, rfl⟩,
    match c16_total_on_chains exampleHeap (.ptr (some 0)) [.ptr (some 1)] ⟨rfl, rfl⟩ 2
      (by decide) with
    | ⟨⟨_, hcause, _, hroot, _⟩, hlist, herr, hdiv, _⟩ =>
      ⟨hcause.trans (congrArg Outcome.ok hroot), hlist, herr 0 rfl, hdiv⟩⟩

/-- C17: on a chain starting at `err` (a chain of one element for a value that is not an
`Error`, the nil error included), `List` returns a non-empty list whose first element is
what `Cause` returns and whose last element is `err`. -/
theorem c17_list_starts_at_cause_ends_at_err {V : Type} (h : Heap V) (err : GoError)
    (rest : List GoError) (hc : IsChain h (err :: rest)) (fuel : Nat)
    (hf : rest.length + 1 ≤ fuel) :
    ∃ l c, ListOf h fuel err = .ok l ∧ Cause h fuel err = .ok c ∧ l ≠ [] ∧
      l.head? = some c ∧ l.getLast? = some err := by
  refine ⟨_, _, ListOf_chain h rest err hc fuel hf, Cause_chain h rest err hc fuel hf, ?_, ?_, ?_⟩
  · simp
  · rw [List.head?_reverse, List.getLast?_eq_getLast _ (List.cons_ne_nil err rest)]
  · rw [List.getLast?_reverse]; rfl

/-- C17 for the nil error, a chain of one element. -/
theorem c17_list_starts_at_cause_ends_at_err_witness :
    IsChain exampleHeap [GoError.nil] ∧
      ∃ l c, ListOf exampleHeap 1 .nil = .ok l ∧ Cause exampleHeap 1 .nil = .ok c ∧ l ≠ [] ∧
        l.head? = some c ∧ l.getLast? = some GoError.nil :=
  ⟨trivial, c17_list_starts_at_cause_ends_at_err exampleHeap .nil [] trivial 1 (by decide)⟩

/-- C18: on a chain starting at `err` with no nil element, `err.Error()` is the strings of
the elements of `List(err)`, taken in reverse order and joined with `"; "` (the `Msg` of an
`Error`, the text of a foreign error); its length is the sum of their lengths plus two
characters for each of the `len(List(err)) - 1` separators. -/
theorem c18_error_is_joined_reversed_list {V : Type} (h : Heap V) (err : GoError)
    (rest : List GoError) (hc : IsChain h (err :: rest))
    (hnn : ∀ x ∈ err :: rest, x ≠ GoError.nil) (fuel : Nat) (hf : rest.length + 1 ≤ fuel) :
    ∃ l s, ListOf h fuel err = .ok l ∧ callError h fuel err = .ok s ∧
      s = joinSemicolon (l.reverse.map (elementText h)) ∧
      s = "; ".intercalate (l.reverse.map (elementText h)) ∧
      s.length = (l.map (fun x => (elementText h x).length)).sum + 2 * (l.length - 1) := by
  have hlist := ListOf_chain h rest err hc fuel hf
  have hcall : callError h fuel err =
      .ok (joinSemicolon ((err :: rest).map (elementText h))) := by
    rcases err with _ | ⟨i, t⟩ | q
    · exact absurd rfl (hnn .nil (List.mem_cons_self _ _))
    · cases rest with
      | nil => rfl
      | cons x rest1 => exact absurd hc.1 (by simp [HasParent])
    · rcases q with _ | a
      · cases rest with
        | nil => exact absurd hc (by simp [IsChain, IsRoot, deref])
        | cons x rest1 => exact absurd hc.1 (by simp [HasParent, deref])
      · exact Error_chain h rest a hc fuel hf
  refine ⟨_, _, hlist, hcall, by rw [List.reverse_reverse], ?_, ?_⟩
  · rw [List.reverse_reverse, joinSemicolon_eq_intercalate]
  · rw [joinSemicolon_length]
    simp only [List.map_map, List.length_map, List.length_reverse, List.map_reverse,
      List.sum_reverse]
    rfl

/-- C18 on the example heap: record 0 renders as its message, `"; "`, the message of
record 1. -/
theorem c18_error_is_joined_reversed_list_witness :
    IsChain exampleHeap [.ptr (some 0), .ptr (some 1)] ∧
      callError exampleHeap 2 (.ptr (some 0)) =
        .ok "operation update failed; low-level failure" ∧
      ∃ l s, ListOf exampleHeap 2 (.ptr (some 0)) = .ok l ∧
        callError exampleHeap 2 (.ptr (some 0)) = .ok s ∧
        s = joinSemicolon (l.reverse.map (elementText exampleHeap)) ∧
        s = "; ".intercalate (l.reverse.map (elementText exampleHeap)) ∧
        s.length = (l.map (fun x => (elementText exampleHeap x).length)).sum +
          2 * (l.length - 1) :=
  ⟨⟨rfl, rfl⟩, rfl,
    c18_error_is_joined_reversed_list exampleHeap (.ptr (some 0)) [.ptr (some 1)] ⟨rfl, rfl⟩
      (by decide) 2 (by decide)⟩

/-- C19: what `Cause` returns is never an `Error` with a parent set, and `Cause` of it is
itself; on a chain `Cause` does return. -/
theorem c19_cause_is_idempotent {V : Type} (h : Heap V) (err : GoError)
    (rest : List GoError) (hc : IsChain h (err :: rest)) (fuel : Nat)
    (hf : rest.length + 1 ≤ fuel) :
    (∃ c, Cause h fuel err = .ok c ∧ Cause h fuel c = .ok c ∧ ∀ p, ¬ HasParent h c p) ∧
      (∀ n x y, Cause h n x = .ok y →
        Cause h n y = .ok y ∧ ∀ p, ¬ HasParent h y p) := by
  have hgen : ∀ n x y, Cause h n x = .ok y →
      Cause h n y = .ok y ∧ ∀ p, ¬ HasParent h y p := by
    intro n x y hxy
    have hroot := Cause_ok_isRoot h n x y hxy
    cases n with
    | zero => simp [Cause] at hxy
    | succ k => exact ⟨Cause_of_isRoot h k y hroot, not_hasParent_of_isRoot h y hroot⟩
  have hcause := Cause_chain h rest err hc fuel hf
  exact ⟨⟨_, hcause, (hgen fuel err _ hcause).1, (hgen fuel err _ hcause).2⟩, hgen⟩

/-- C19 on the example heap: the cause of record 0 is record 1, which is its own cause. -/
theorem c19_cause_is_idempotent_witness :
    IsChain exampleHeap [.ptr (some 0), .ptr (some 1)] ∧
      Cause exampleHeap 2 (.ptr (some 0)) = .ok (.ptr (some 1)) ∧
      Cause exampleHeap 2 (.ptr (some 1)) = .ok (.ptr (some 1)) :=
  ⟨⟨rfl, rfl⟩, rfl,
    ((c19_cause_is_idempotent exampleHeap (.ptr (some 0)) [.ptr (some 1)] ⟨rfl, rfl⟩ 2
      (by decide)).2 2 (.ptr (some 0)) (.ptr (some 1)) rfl).1⟩

/-- C20: `SetParent(nil)` sets the parent: after `New(m).SetParent(nil)` the field `Parent`
is a pointer to the nil error, `Error` gives `m` followed by `; <nil>` and not `m`, `Cause`
gives the nil error and not the record, and `List` gives the nil error followed by the
record. -/
theorem c20_setParent_nil_counts_as_parent {V : Type} (w : World) (h : Heap V) (m : String) :
    ∃ h2,
      Error.SetParent (New w h m).1 (New w h m).2 .nil = .ok (h2, some h.length) ∧
      h2[h.length]? =
        some { Msg := m, Parent := some .nil, Args := some ∅, Caller := Caller w 1 } ∧
      (∀ fuel, Error.Error h2 (fuel + 1) (some h.length) = .ok (m ++ "; <nil>")) ∧
      m ++ "; <nil>" ≠ m ∧
      (∀ fuel, Cause h2 (fuel + 2) (.ptr (some h.length)) = .ok .nil) ∧
      GoError.nil ≠ .ptr (some h.length) ∧
      (∀ fuel, ListOf h2 (fuel + 2) (.ptr (some h.length)) =
        .ok [.nil, .ptr (some h.length)]) := by
  have h2x := lookup_set_self (New w h m).1 h.length _
    { Msg := m, Parent := some .nil, Args := some ∅, Caller := Caller w 1 }
    (New_lookup_new w h m)
  have hpar : HasParent
      ((New w h m).1.set h.length
        { Msg := m, Parent := some .nil, Args := some ∅, Caller := Caller w 1 })
      (.ptr (some h.length)) .nil := by
    simp only [HasParent, deref, h2x]
  refine ⟨_, SetParent_ok _ _ _ .nil (New_lookup_new w h m), h2x, ?_, ?_, ?_, ?_, ?_⟩
  · intro fuel
    rw [Error_parentNil _ fuel _ _ h2x rfl, String.append_assoc]
    rfl
  · intro heq
    have hlen := congrArg String.length heq
    rw [String.length_append] at hlen
    have h7 : "; <nil>".length = 7 := rfl
    omega
  · intro fuel
    rw [Cause_of_hasParent _ (fuel + 1) _ .nil hpar]
    rfl
  · intro heq; cases heq
  · intro fuel
    rw [ListOf_of_hasParent _ (fuel + 1) _ .nil hpar]
    rfl

end Errors
